import Mathlib

/-!
Verification development for the tractatus resource-inventory engine.

The Go sources are shallowly embedded: each Go function becomes a Lean
definition of the same name (namespaced by package / file revision), Go
slices become `List`, Go `map[string]string` values become association
lists queried with `mapGet` and built with `mapInsert` (last write wins),
and network calls become explicit oracle parameters.  The handful of Go
`strings` operations the code uses are given executable models over the
underlying character lists (`str*` / `go*` helpers below).

Namespaces:
* `Gh`    — package github: internal/sources/github/detector.go together
            with the first revision of internal/sources/github/client.go
            (lines 1–176 of that file).
* `GhV2`  — the later revision of the detector found in src/unnamed/part_001.
* `Aws`   — internal/aws/client.go.
* `SourcesAws` — the AWS data-source adapter in internal/sources/source.go.
* `Inv`   — package inventory as in src/unnamed/part_002.
* `Tbl`   — the revision of package inventory embedded at the end of
            internal/output/table.go (Collector, CollectFromAccounts,
            enrichResources, with its own smaller ResourceInfo).
-/

/-- Go `strings.HasPrefix s p`, expressed on the underlying character lists. -/
def strStartsWith (s p : String) : Bool :=
  p.toList.isPrefixOf s.toList

/-- Go `strings.Contains s sub`, expressed on the underlying character lists. -/
def strContains (s sub : String) : Bool :=
  decide (sub.toList <:+: s.toList)

/-- Go `strings.TrimPrefix s p`. -/
def strTrimStart (s p : String) : String :=
  if strStartsWith s p then String.mk (s.toList.drop p.toList.length) else s

/-- Go `strings.TrimSuffix s suf`. -/
def strTrimEnd (s suf : String) : String :=
  if suf.toList.isSuffixOf s.toList then
    String.mk (s.toList.take (s.toList.length - suf.toList.length))
  else s

/-- Go `strings.TrimSpace`. -/
def strTrim (s : String) : String :=
  String.mk (((s.toList.dropWhile Char.isWhitespace).reverse.dropWhile
    Char.isWhitespace).reverse)

/-- Split a character list at every occurrence of `sep` (the separators are
dropped; empty chunks are kept, as with Go `strings.Split`). -/
def splitOnChar (sep : Char) : List Char → List (List Char)
  | [] => [[]]
  | c :: cs =>
    if c == sep then [] :: splitOnChar sep cs
    else
      match splitOnChar sep cs with
      | [] => [[c]]
      | chunk :: chunks => (c :: chunk) :: chunks

/-- Go `strings.Split s (String.singleton sep)`. -/
def strSplitChar (s : String) (sep : Char) : List String :=
  (splitOnChar sep s.toList).map (fun l => String.mk l)

/-- Go `strings.Fields`: split on whitespace and drop the empty pieces. -/
def goFields (s : String) : List String :=
  ((s.toList.splitOnP Char.isWhitespace).map (fun l => String.mk l)).filter
    (fun t => t != "")

/-- Go `strings.Join l sep`. -/
def goJoin (sep : String) : List String → String
  | [] => ""
  | [s] => s
  | s :: rest => s ++ sep ++ goJoin sep rest

/-- Lookup in a Go `map[string]string` modelled as an association list. -/
def mapGet (m : List (String × String)) (k : String) : Option String :=
  (m.find? (fun p => p.1 == k)).map (fun p => p.2)

/-- Insertion into a Go `map[string]string` (`m[k] = v`): the last write wins. -/
def mapInsert (m : List (String × String)) (k v : String) : List (String × String) :=
  (m.filter (fun p => p.1 != k)) ++ [(k, v)]

/-- `inventory.ResourceInfo` (src/unnamed/part_002).  Defaults are the Go zero
values, so a Lean structure literal mentioning only some fields mirrors the
corresponding Go struct literal. -/
structure ResourceInfo where
  AppName : String := ""
  Owner : String := ""
  Team : String := ""
  Platform : String := ""
  StackName : String := ""
  HasCICD : Bool := false
  Account : String := ""
  ARN : String := ""
  ResourceTags : List (String × String) := []
  GitHubRepo : String := ""
  LastCommitter : String := ""
  LastCommitDate : String := ""
  HasCodeOwners : Bool := false
  CodeOwners : List String := []
  HasTests : Bool := false
  TestFramework : String := ""
  CICDPlatform : String := ""
  RepoURL : String := ""
  IsArchived : Bool := false
  deriving DecidableEq

namespace Gh

/-- A GitHub repository as returned by `ListRepositories` (fields as used by
`analyzeRepository`; the flat file listing drives all detectors). -/
structure Repository where
  Name : String := ""
  HTMLURL : String := ""
  IsArchived : Bool := false
  LastCommitter : String := ""
  LastCommitDate : String := ""
  Files : List String := []
  deriving DecidableEq

/-- `cicdFiles` (detector.go): CI/CD platform indicators.  In Go this is a
`map[string]string`; its entries are listed here in source order, and the
functions below take the entry order as a parameter so that independence from
Go's map-iteration order can be stated. -/
def cicdFiles : List (String × String) :=
  [(".circleci/config.yml", "CircleCI"),
   (".github/workflows", "GitHub Actions"),
   ("bitbucket-pipelines.yml", "Bitbucket Pipelines"),
   (".gitlab-ci.yml", "GitLab CI"),
   ("Jenkinsfile", "Jenkins"),
   (".travis.yml", "Travis CI"),
   ("azure-pipelines.yml", "Azure Pipelines")]

/-- `testDirs` (detector.go). -/
def testDirs : List String :=
  ["test/", "tests/", "__tests__/", "spec/", "test_suite/", "testing/"]

/-- `eksIndicators` (detector.go). -/
def eksIndicators : List String :=
  ["k8s/", "kubernetes/", ".kube/", "helm/", "Chart.yaml",
   "kustomization.yaml", "kustomization.yml"]

/-- `ecsIndicators` (detector.go). -/
def ecsIndicators : List String :=
  ["ecs-task-definition.json", "ecs-service.json", "Dockerfile"]

/-- `lambdaIndicators` (detector.go). -/
def lambdaIndicators : List String :=
  ["serverless.yml", "serverless.yaml", "template.yaml", "template.yml",
   "lambda/", "functions/"]

/-- `beanstalkIndicators` (detector.go). -/
def beanstalkIndicators : List String :=
  [".ebextensions/", "Procfile", ".elasticbeanstalk/"]

/-- One file matched against one `cicdFiles` entry
(`file == pattern || strings.HasPrefix(file, pattern)`). -/
def cicdMatch (file pattern : String) : Bool :=
  file == pattern || strStartsWith file pattern

/-- `Detector.DetectCICD` (detector.go), parameterized by the iteration order
`tbl` of the `cicdFiles` map: the first file having a matching pattern yields
that pattern's platform. -/
def DetectCICDWith (tbl : List (String × String)) (files : List String) :
    Bool × String :=
  match files.findSome? (fun file =>
      tbl.findSome? (fun e =>
        if cicdMatch file e.1 then some e.2 else none)) with
  | some platform => (true, platform)
  | none => (false, "")

/-- `Detector.DetectCICD` with the table in its source order. -/
def DetectCICD (files : List String) : Bool × String :=
  DetectCICDWith cicdFiles files

/-- `testPatterns` (the local slice inside `Detector.DetectTests`). -/
def testPatterns : List String :=
  ["_test.go", ".spec.js", ".test.js", ".spec.ts", ".test.ts",
   "Test.java", "test_"]

/-- `Detector.DetectTests` (detector.go): first the directory stage, then the
filename-pattern stage. -/
def DetectTests (files : List String) : Bool × String :=
  if files.any (fun file =>
      testDirs.any (fun testDir =>
        file == strTrimEnd testDir "/" || strStartsWith file testDir)) then
    (true, "detected test directory")
  else if files.any (fun file =>
      testPatterns.any (fun pattern => strContains file pattern)) then
    (true, "detected test files")
  else
    (false, "")

/-- `Detector.IsEKS` (detector.go). -/
def IsEKS (files : List String) : Bool :=
  files.any (fun file =>
    eksIndicators.any (fun indicator =>
      file == strTrimEnd indicator "/" || strStartsWith file indicator))

/-- One file matched against one platform-indicator entry
(`file == indicator || strings.HasPrefix(file, indicator)`). -/
def indicatorMatch (indicators : List String) (file : String) : Bool :=
  indicators.any (fun indicator =>
    file == indicator || strStartsWith file indicator)

/-- `Detector.DetectPlatform` (detector.go).  Each of the three loops walks
the whole file list and appends its label once for every file matching its
indicator set (the `break` in the Go source only leaves the inner indicator
loop), then the labels are comma-joined, or "Unknown" when there are none. -/
def DetectPlatform (files : List String) : String :=
  let platforms : List String := []
  let platforms := files.foldl (fun acc file =>
    if indicatorMatch ecsIndicators file then acc ++ ["ECS"] else acc) platforms
  let platforms := files.foldl (fun acc file =>
    if indicatorMatch lambdaIndicators file then acc ++ ["Lambda"] else acc) platforms
  let platforms := files.foldl (fun acc file =>
    if indicatorMatch beanstalkIndicators file then acc ++ ["Elastic Beanstalk"] else acc) platforms
  if platforms.length == 0 then "Unknown"
  else goJoin ", " platforms

/-- The candidate CODEOWNERS locations (the local slice in
`Detector.DetectCodeOwners`, identical to the one in `getCodeOwnersContent`). -/
def codeownersFiles : List String :=
  ["CODEOWNERS", ".github/CODEOWNERS", "docs/CODEOWNERS"]

/-- `Detector.DetectCodeOwners` (detector.go). -/
def DetectCodeOwners (files : List String) : Bool :=
  files.any (fun file => codeownersFiles.any (fun c => file == c))

/-- `Detector.ParseCodeOwners` as in detector.go: only `@`-prefixed tokens are
kept (plain e-mail tokens are dropped by this revision). -/
def ParseCodeOwners (content : String) : List String :=
  (strSplitChar content '\n').foldl (fun owners line =>
    let line := strTrim line
    if line == "" || strStartsWith line "#" then owners
    else
      let parts := goFields line
      if parts.length > 1 then
        (parts.drop 1).foldl (fun acc part =>
          if strStartsWith part "@" then
            let owner := strTrimStart part "@"
            if acc.contains owner then acc else acc ++ [owner]
          else acc) owners
      else owners) []

end Gh

namespace GhV2

/-- `Detector.ParseCodeOwners` as in src/unnamed/part_001: a token is an owner
when it is `@`-prefixed (the marker is stripped) or contains an `@` address;
the `ownerSet` map of the Go source tracks exactly membership in the `owners`
slice, so the accumulator's own membership test models it. -/
def ParseCodeOwners (content : String) : List String :=
  (strSplitChar content '\n').foldl (fun owners line =>
    let line := strTrim line
    if line == "" || strStartsWith line "#" then owners
    else
      let parts := goFields line
      if parts.length > 1 then
        (parts.drop 1).foldl (fun acc part =>
          if strStartsWith part "@" then
            let owner := strTrimStart part "@"
            if acc.contains owner then acc else acc ++ [owner]
          else if strContains part "@" then
            if acc.contains part then acc else acc ++ [part]
          else acc) owners
      else owners) []

end GhV2

namespace Gh

/-- `getCodeOwnersContent` (client.go, first revision): walk the candidate
locations; a location is tried only when it occurs in the repository's file
listing; the first successful fetch is returned.  The network call
`client.GetFileContent(ctx, repoName, location)` is modelled by the oracle
`fetch : repoName → location → Option content`, `none` standing for an error. -/
def getCodeOwnersContent (fetch : String → String → Option String)
    (repoName : String) (files : List String) : Option String :=
  codeownersFiles.findSome? (fun location =>
    if files.contains location then fetch repoName location else none)

/-- `analyzeRepository` (client.go, first revision), parameterized by the
`cicdFiles` iteration order `tbl` and the file-content oracle `fetch`. -/
def analyzeRepositoryWith (tbl : List (String × String))
    (fetch : String → String → Option String) (repo : Repository) : ResourceInfo :=
  let cicd := DetectCICDWith tbl repo.Files
  let tests := DetectTests repo.Files
  let hasCodeOwners := DetectCodeOwners repo.Files
  let codeOwners : List String :=
    if hasCodeOwners then
      match getCodeOwnersContent fetch repo.Name repo.Files with
      | some content => ParseCodeOwners content
      | none => []
    else []
  let owner0 : String := match codeOwners with
    | [] => ""
    | o :: _ => o
  { AppName := repo.Name
    GitHubRepo := repo.Name
    RepoURL := repo.HTMLURL
    IsArchived := repo.IsArchived
    LastCommitter := repo.LastCommitter
    LastCommitDate := repo.LastCommitDate
    HasCICD := cicd.1
    CICDPlatform := cicd.2
    HasTests := tests.1
    TestFramework := tests.2
    Platform := DetectPlatform repo.Files
    HasCodeOwners := hasCodeOwners
    CodeOwners := codeOwners
    Owner := if owner0 == "" then "Unknown" else owner0
    Team := if owner0 == "" then "Unknown" else owner0 }

/-- `analyzeRepository` with the CI/CD table in its source order. -/
def analyzeRepository (fetch : String → String → Option String)
    (repo : Repository) : ResourceInfo :=
  analyzeRepositoryWith cicdFiles fetch repo

/-- `DataSource.Collect` (client.go, first revision): analyze every listed
repository, skipping the EKS ones.  The repository listing returned by
`ListRepositories` is the input. -/
def Collect (fetch : String → String → Option String)
    (repos : List Repository) : List ResourceInfo :=
  repos.foldl (fun resources repo =>
    if IsEKS repo.Files then resources
    else resources ++ [analyzeRepository fetch repo]) []

end Gh

namespace Aws

/-- One entry of `mapping.Tags` (`types.Tag`): key and value are nullable
pointers in the Go SDK. -/
structure Tag where
  Key : Option String := none
  Value : Option String := none
  deriving DecidableEq

/-- `types.ResourceTagMapping` as consumed by `processResource`. -/
structure ResourceTagMapping where
  ResourceARN : String := ""
  Tags : List Tag := []
  deriving DecidableEq

/-- `Resource` (internal/aws/client.go). -/
structure Resource where
  ARN : String := ""
  Tags : List (String × String) := []
  Platform : String := ""
  Account : String := ""
  deriving DecidableEq

/-- The body of `parseARN`'s character loop: at a colon the accumulated
segment is appended and reset, otherwise the character extends it. -/
def arnStep (acc : List String × String) (char : Char) : List String × String :=
  if char == ':' then (acc.1 ++ [acc.2], "") else (acc.1, acc.2.push char)

/-- `parseARN` (client.go): split the ARN at every colon, appending the
accumulated segment at each colon and the final segment only when non-empty. -/
def parseARN (arn : String) : List String :=
  let r := arn.toList.foldl arnStep ([], "")
  if r.2 != "" then r.1 ++ [r.2] else r.1

/-- The `platformMap` literal inside `extractPlatformFromARN`. -/
def platformMap : List (String × String) :=
  [("ec2", "EC2"), ("lambda", "Lambda"), ("ecs", "ECS"),
   ("elasticbeanstalk", "Elastic Beanstalk"), ("lightsail", "Lightsail"),
   ("apprunner", "App Runner")]

/-- `extractPlatformFromARN` (client.go). -/
def extractPlatformFromARN (arn : String) : String :=
  let parts := parseARN arn
  if parts.length < 3 then "unknown"
  else
    let service := parts.getD 2 ""
    match mapGet platformMap service with
    | some friendly => friendly
    | none => service

/-- The tag-map construction loop of `processResource`: entries with a nil key
or value are skipped, later keys overwrite earlier ones. -/
def buildTags (tags : List Tag) : List (String × String) :=
  tags.foldl (fun m tag =>
    match tag.Key, tag.Value with
    | some k, some v => mapInsert m k v
    | _, _ => m) []

/-- `processResource` (client.go). -/
def processResource (accountName : String) (mapping : ResourceTagMapping) :
    Resource :=
  { ARN := mapping.ResourceARN
    Tags := buildTags mapping.Tags
    Platform := extractPlatformFromARN mapping.ResourceARN
    Account := accountName }

/-- `isEKSResource` (client.go). -/
def isEKSResource (tags : List (String × String)) : Bool :=
  (mapGet tags "aws:eks:cluster-name").isSome ||
  (mapGet tags "eks:nodegroup-name").isSome ||
  (mapGet tags "eks:cluster-name").isSome

/-- `GetResources` (client.go): one collection run.  The paginated tagging-API
responses are the input, one inner list per `GetResources` page; each mapping
is processed and appended unless it carries an EKS signal. -/
def GetResources (accountName : String)
    (pages : List (List ResourceTagMapping)) : List Resource :=
  pages.foldl (fun allResources page =>
    page.foldl (fun acc mapping =>
      let resource := processResource accountName mapping
      if !isEKSResource resource.Tags then acc ++ [resource] else acc)
      allResources) []

end Aws

namespace SourcesAws

/-- `enrichResource` (internal/sources/source.go): the tag-driven
priority-cascade classifier for one AWS resource. -/
def enrichResource (res : Aws.Resource) : ResourceInfo :=
  let appName := match mapGet res.Tags "Name" with
    | some name => name
    | none => match mapGet res.Tags "aws:cloudformation:logical-id" with
      | some logicalID => logicalID
      | none => "Unknown"
  let owner := match mapGet res.Tags "owned-by" with
    | some owner => owner
    | none => match mapGet res.Tags "team" with
      | some team => team
      | none => "Unknown"
  let team := match mapGet res.Tags "team" with
    | some team => team
    | none => match mapGet res.Tags "owned-by" with
      | some owner => owner
      | none => "Unknown"
  let stack := match mapGet res.Tags "aws:cloudformation:stack-name" with
    | some stackName => (stackName, true, "CloudFormation")
    | none => ("None", false, "")
  { Platform := res.Platform
    Account := res.Account
    ARN := res.ARN
    ResourceTags := res.Tags
    AppName := appName
    Owner := owner
    Team := team
    StackName := stack.1
    HasCICD := stack.2.1
    CICDPlatform := stack.2.2 }

/-- `DataSource.Collect` (internal/sources/source.go): fetch the resources of
one account (whose pages are the input) and enrich each of them. -/
def Collect (accountName : String)
    (pages : List (List Aws.ResourceTagMapping)) : List ResourceInfo :=
  (Aws.GetResources accountName pages).map enrichResource

end SourcesAws

namespace Inv

/-- `inventory.Inventory` (src/unnamed/part_002). -/
structure Inventory where
  Resources : List ResourceInfo := []
  deriving DecidableEq

/-- `MergeInventories` (src/unnamed/part_002; the revision at the end of
internal/output/table.go is line-for-line the same): append every input
inventory's resource sequence in input order. -/
def MergeInventories (inventories : List Inventory) : Inventory :=
  { Resources := inventories.foldl (fun merged inv => merged ++ inv.Resources) [] }

end Inv

namespace Tbl

/-- The `ResourceInfo` of the inventory-package revision embedded in
internal/output/table.go (AWS-only fields). -/
structure ResourceInfo where
  AppName : String := ""
  Owner : String := ""
  Team : String := ""
  Platform : String := ""
  StackName : String := ""
  HasCICD : Bool := false
  Account : String := ""
  ARN : String := ""
  ResourceTags : List (String × String) := []
  deriving DecidableEq

/-- The `Inventory` of that revision. -/
structure Inventory where
  Resources : List ResourceInfo := []
  deriving DecidableEq

/-- `Collector.enrichResources` (table.go revision): same cascade as
`SourcesAws.enrichResource`, without the CI/CD platform field. -/
def enrichResources (res : Aws.Resource) : ResourceInfo :=
  let appName := match mapGet res.Tags "Name" with
    | some name => name
    | none => match mapGet res.Tags "aws:cloudformation:logical-id" with
      | some logicalID => logicalID
      | none => "Unknown"
  let owner := match mapGet res.Tags "owned-by" with
    | some owner => owner
    | none => match mapGet res.Tags "team" with
      | some team => team
      | none => "Unknown"
  let team := match mapGet res.Tags "team" with
    | some team => team
    | none => match mapGet res.Tags "owned-by" with
      | some owner => owner
      | none => "Unknown"
  let stack := match mapGet res.Tags "aws:cloudformation:stack-name" with
    | some stackName => (stackName, true)
    | none => ("None", false)
  { Platform := res.Platform
    Account := res.Account
    ARN := res.ARN
    ResourceTags := res.Tags
    AppName := appName
    Owner := owner
    Team := team
    StackName := stack.1
    HasCICD := stack.2 }

/-- The possible outcome of one account's backend interaction, standing for
`awsclient.NewClient` (which may fail) followed by `client.GetResources`
(which may fail or return the account's resources). -/
inductive Outcome where
  | clientError (msg : String)
  | resourcesError (msg : String)
  | ok (resources : List Aws.Resource)

/-- `Collector.collectFromAccount` (table.go revision): wrap each failure with
the account name; on success, enrich every resource into an `Inventory`. -/
def collectFromAccount (outcome : String → Outcome) (accountName : String) :
    Except String Inventory :=
  match outcome accountName with
  | .clientError e =>
      .error ("collectFromAccount: account '" ++ accountName ++
        "': failed to create AWS client: " ++ e)
  | .resourcesError e =>
      .error ("collectFromAccount: account '" ++ accountName ++
        "': failed to get resources: " ++ e)
  | .ok resources => .ok { Resources := resources.map enrichResources }

/-- `Collector.CollectFromAccounts` (table.go revision).  The goroutines
deliver one `accountResult` per account over a channel in a nondeterministic
order; `arrival` is that channel order (any permutation of the requested
account names), and the fan-in loop partitions the results into the successful
inventories and the errors. -/
def CollectFromAccounts (outcome : String → Outcome) (arrival : List String) :
    List Inventory × List String :=
  arrival.foldl (fun acc accountName =>
    match collectFromAccount outcome accountName with
    | .error e => (acc.1, acc.2 ++ [e])
    | .ok inv => (acc.1 ++ [inv], acc.2)) ([], [])

end Tbl

/-! ## Specification-side functions

These follow the spec's wording and are compared with the embedded code. -/

/-- Spec side of the CODEOWNERS parse: classify one whitespace token as an
owner — an identity-prefix marker is stripped, an `@`-containing address is
kept verbatim, anything else is not an owner. -/
def classifyOwner (part : String) : Option String :=
  if strStartsWith part "@" then some (strTrimStart part "@")
  else if strContains part "@" then some part
  else none

/-- Append an owner unless it was already seen. -/
def dedupAppend (acc : List String) (owner : String) : List String :=
  if acc.contains owner then acc else acc ++ [owner]

/-- Spec side: the candidate owner tokens of one CODEOWNERS line — nothing
for blank or comment lines, otherwise every whitespace-separated token after
the leading path pattern. -/
def lineOwnerTokens (line : String) : List String :=
  if strTrim line == "" || strStartsWith (strTrim line) "#" then []
  else (goFields (strTrim line)).drop 1

/-- Spec side: all owner tokens of a CODEOWNERS file, line by line. -/
def ownerTokens (content : String) : List String :=
  (((strSplitChar content '\n').map lineOwnerTokens).flatten).filterMap classifyOwner

/-- Spec side of `ParseCodeOwners`: the owner tokens in first-seen order with
duplicates removed. -/
def parseCodeOwnersSpec (content : String) : List String :=
  (ownerTokens content).foldl dedupAppend []

/-- Spec side of `parseARN`: the colon-separated segments of the identifier. -/
def colonSegments (s : String) : List String :=
  (splitOnChar ':' s.toList).map (fun l => String.mk l)

/-- Drop a final empty segment (Go's `parseARN` never appends the trailing
accumulator when it is empty). -/
def dropTrailingEmpty (segs : List String) : List String :=
  if segs.getLast? = some "" then segs.dropLast else segs

/-! ## Helper lemmas -/

theorem dedupAppend_nodup {acc : List String} (h : acc.Nodup) (owner : String) :
    (dedupAppend acc owner).Nodup := by
  unfold dedupAppend
  split
  · exact h
  · next hc =>
    have hnot : owner ∉ acc := fun hmem => hc (List.elem_iff.mpr hmem)
    rw [List.nodup_append]
    refine ⟨h, List.nodup_singleton _, fun a ha hb => ?_⟩
    rw [List.mem_singleton] at hb
    subst hb
    exact hnot ha

theorem foldl_dedupAppend_nodup (l : List String) :
    ∀ acc : List String, acc.Nodup → (l.foldl dedupAppend acc).Nodup := by
  induction l with
  | nil => intro acc h; exact h
  | cons x xs ih =>
    intro acc h
    exact ih _ (dedupAppend_nodup h x)

theorem foldl_append_eq_join {α β : Type} (f : β → List α) (l : List β) :
    ∀ acc : List α, l.foldl (fun m b => m ++ f b) acc = acc ++ (l.map f).flatten := by
  induction l with
  | nil => intro acc; simp
  | cons x xs ih =>
    intro acc
    simp [List.foldl_cons, ih, List.append_assoc]

/-! ### C7 helper: merge is concatenation -/

theorem mergeInventories_resources (inventories : List Inv.Inventory) :
    (Inv.MergeInventories inventories).Resources =
      (inventories.map Inv.Inventory.Resources).flatten := by
  unfold Inv.MergeInventories
  simpa using foldl_append_eq_join Inv.Inventory.Resources inventories []

/-- **C7** — For every list of inventories, `MergeInventories` concatenates the
inputs' resource sequences in input order, with no deduplication or
reordering: the merged resources are exactly the flattening of the inputs'
resource lists, the merged length is the sum of the input lengths, and merging
concrete inventories of sizes 2 and 3 yields their five resources in order. -/
theorem mergeInventories_concat :
    (∀ inventories : List Inv.Inventory,
      (Inv.MergeInventories inventories).Resources =
        (inventories.map Inv.Inventory.Resources).flatten) ∧
    (∀ inventories : List Inv.Inventory,
      (Inv.MergeInventories inventories).Resources.length =
        (inventories.map (fun inv => inv.Resources.length)).sum) ∧
    Inv.MergeInventories
        [{ Resources := [{ AppName := "a" }, { AppName := "b" }] },
         { Resources := [{ AppName := "c" }, { AppName := "d" }, { AppName := "e" }] }] =
      { Resources := [{ AppName := "a" }, { AppName := "b" }, { AppName := "c" },
          { AppName := "d" }, { AppName := "e" }] } := by
  refine ⟨mergeInventories_resources, ?_, by decide⟩
  intro inventories
  rw [mergeInventories_resources, List.length_flatten, List.map_map]
  rfl

/-! ### C2: the ownership priority cascade -/

/-- **C2** — The cloud-tag classifier resolves Owner as `owned-by` → `team` →
"Unknown" and Team as `team` → `owned-by` → "Unknown" (both in the
data-source enricher of internal/sources/source.go and in the collector
enricher of internal/output/table.go); consequently a tag map carrying only a
`team` tag yields Owner = Team = that value, and a tag map lacking both keys
yields Owner = Team = "Unknown". -/
theorem enrich_owner_team_cascade :
    (∀ res : Aws.Resource,
      (SourcesAws.enrichResource res).Owner =
        ((mapGet res.Tags "owned-by").getD ((mapGet res.Tags "team").getD "Unknown")) ∧
      (SourcesAws.enrichResource res).Team =
        ((mapGet res.Tags "team").getD ((mapGet res.Tags "owned-by").getD "Unknown"))) ∧
    (∀ res : Aws.Resource,
      (Tbl.enrichResources res).Owner =
        ((mapGet res.Tags "owned-by").getD ((mapGet res.Tags "team").getD "Unknown")) ∧
      (Tbl.enrichResources res).Team =
        ((mapGet res.Tags "team").getD ((mapGet res.Tags "owned-by").getD "Unknown"))) ∧
    (∀ v : String,
      (SourcesAws.enrichResource { Tags := [("team", v)] }).Owner = v ∧
      (SourcesAws.enrichResource { Tags := [("team", v)] }).Team = v) ∧
    (∀ res : Aws.Resource, mapGet res.Tags "owned-by" = none →
      mapGet res.Tags "team" = none →
      (SourcesAws.enrichResource res).Owner = "Unknown" ∧
      (SourcesAws.enrichResource res).Team = "Unknown") := by
  refine ⟨?_, ?_, ?_, ?_⟩
  · intro res
    constructor <;>
      · cases h₁ : mapGet res.Tags "owned-by" <;>
          cases h₂ : mapGet res.Tags "team" <;>
            simp [SourcesAws.enrichResource, h₁, h₂]
  · intro res
    constructor <;>
      · cases h₁ : mapGet res.Tags "owned-by" <;>
          cases h₂ : mapGet res.Tags "team" <;>
            simp [Tbl.enrichResources, h₁, h₂]
  · intro v
    constructor <;> rfl
  · intro res h₁ h₂
    constructor <;> simp [SourcesAws.enrichResource, h₁, h₂]

/-- Witness for the hypothesis-bearing conjunct of `enrich_owner_team_cascade`:
a concrete resource with no ownership tags resolves both fields to the
sentinel. -/
theorem enrich_owner_team_cascade_witness :
    mapGet ([("Name", "app")] : List (String × String)) "owned-by" = none ∧
    (SourcesAws.enrichResource { Tags := [("Name", "app")] }).Owner = "Unknown" ∧
    (SourcesAws.enrichResource { Tags := [("Name", "app")] }).Team = "Unknown" := by
  refine ⟨by decide, ?_, ?_⟩
  · exact (enrich_owner_team_cascade.2.2.2 { Tags := [("Name", "app")] }
      (by decide) (by decide)).1
  · exact (enrich_owner_team_cascade.2.2.2 { Tags := [("Name", "app")] }
      (by decide) (by decide)).2

/-! ### C10: CODEOWNERS presence without owners -/

/-- **C10** — A repository whose file listing contains a CODEOWNERS candidate
path but whose content fetch fails (first scenario), or whose fetched content
parses to zero owners (second scenario), yields a record with
`HasCodeOwners = true` while `CodeOwners` is empty and Owner = Team =
"Unknown": presence does not imply a non-empty owner list. -/
theorem codeowners_fetch_failure :
    ((Gh.analyzeRepository (fun _ _ => none)
        { Name := "r1", Files := ["CODEOWNERS"] }).HasCodeOwners = true ∧
     (Gh.analyzeRepository (fun _ _ => none)
        { Name := "r1", Files := ["CODEOWNERS"] }).CodeOwners = [] ∧
     (Gh.analyzeRepository (fun _ _ => none)
        { Name := "r1", Files := ["CODEOWNERS"] }).Owner = "Unknown" ∧
     (Gh.analyzeRepository (fun _ _ => none)
        { Name := "r1", Files := ["CODEOWNERS"] }).Team = "Unknown") ∧
    ((Gh.analyzeRepository (fun _ _ => some "# commented out\n")
        { Name := "r2", Files := [".github/CODEOWNERS"] }).HasCodeOwners = true ∧
     (Gh.analyzeRepository (fun _ _ => some "# commented out\n")
        { Name := "r2", Files := [".github/CODEOWNERS"] }).CodeOwners = [] ∧
     (Gh.analyzeRepository (fun _ _ => some "# commented out\n")
        { Name := "r2", Files := [".github/CODEOWNERS"] }).Owner = "Unknown" ∧
     (Gh.analyzeRepository (fun _ _ => some "# commented out\n")
        { Name := "r2", Files := [".github/CODEOWNERS"] }).Team = "Unknown") := by
  exact ⟨⟨by decide, by decide, by decide, by decide⟩,
         ⟨by decide, by decide, by decide, by decide⟩⟩

/-! ### C1: the CODEOWNERS parser matches its specification -/

theorem parse_token_step (acc : List String) (part : String) :
    (if strStartsWith part "@" then
      let owner := strTrimStart part "@"
      if acc.contains owner then acc else acc ++ [owner]
    else if strContains part "@" then
      if acc.contains part then acc else acc ++ [part]
    else acc) =
    (match classifyOwner part with
     | none => acc
     | some o => dedupAppend acc o) := by
  unfold classifyOwner dedupAppend
  by_cases h1 : strStartsWith part "@" = true <;>
    by_cases h2 : strContains part "@" = true <;>
      simp [h1, h2]

theorem parse_fold_tokens (parts : List String) :
    ∀ acc : List String,
      parts.foldl (fun acc part =>
        if strStartsWith part "@" then
          let owner := strTrimStart part "@"
          if acc.contains owner then acc else acc ++ [owner]
        else if strContains part "@" then
          if acc.contains part then acc else acc ++ [part]
        else acc) acc =
      (parts.filterMap classifyOwner).foldl dedupAppend acc := by
  induction parts with
  | nil => intro acc; rfl
  | cons p ps ih =>
    intro acc
    simp only [List.foldl_cons, List.filterMap_cons]
    rw [parse_token_step]
    cases h : classifyOwner p with
    | none => simp only [h]; exact ih acc
    | some o =>
      simp only [h, List.foldl_cons]
      exact ih (dedupAppend acc o)

theorem parse_lines_fold (lines : List String) :
    ∀ acc : List String,
      lines.foldl (fun owners line =>
        let line := strTrim line
        if line == "" || strStartsWith line "#" then owners
        else
          let parts := goFields line
          if parts.length > 1 then
            (parts.drop 1).foldl (fun acc part =>
              if strStartsWith part "@" then
                let owner := strTrimStart part "@"
                if acc.contains owner then acc else acc ++ [owner]
              else if strContains part "@" then
                if acc.contains part then acc else acc ++ [part]
              else acc) owners
          else owners) acc =
      (((lines.map lineOwnerTokens).flatten).filterMap classifyOwner).foldl
        dedupAppend acc := by
  induction lines with
  | nil => intro acc; rfl
  | cons l ls ih =>
    intro acc
    rw [List.foldl_cons, ih, List.map_cons, List.flatten_cons,
      List.filterMap_append, List.foldl_append]
    congr 1
    show (if strTrim l == "" || strStartsWith (strTrim l) "#" then acc
      else if (goFields (strTrim l)).length > 1 then
        ((goFields (strTrim l)).drop 1).foldl (fun acc part =>
          if strStartsWith part "@" then
            let owner := strTrimStart part "@"
            if acc.contains owner then acc else acc ++ [owner]
          else if strContains part "@" then
            if acc.contains part then acc else acc ++ [part]
          else acc) acc
      else acc) =
      ((lineOwnerTokens l).filterMap classifyOwner).foldl dedupAppend acc
    rw [parse_fold_tokens, lineOwnerTokens]
    by_cases hskip : (strTrim l == "" || strStartsWith (strTrim l) "#") = true
    · rw [if_pos hskip, if_pos hskip]
      rfl
    · rw [if_neg hskip, if_neg hskip]
      by_cases hlen : (goFields (strTrim l)).length > 1
      · rw [if_pos hlen]
      · have hdrop : (goFields (strTrim l)).drop 1 = [] := by
          rw [List.drop_eq_nil_iff]
          omega
        rw [if_neg hlen, hdrop]
        rfl

/-- **C1** — `ParseCodeOwners` (src/unnamed/part_001) returns, for every
content string, exactly the owner tokens of the non-comment, non-blank lines
(first token of each line discarded, an `@`-prefixed token kept with the
marker stripped, an `@`-containing address kept verbatim) in first-seen order
with duplicates removed; the result never contains duplicates; the spec's
example input yields `["alice", "bob", "user@example.com"]`; and a name
repeated across lines appears once. -/
theorem parseCodeOwners_spec :
    (∀ content, GhV2.ParseCodeOwners content = parseCodeOwnersSpec content) ∧
    (∀ content, (GhV2.ParseCodeOwners content).Nodup) ∧
    GhV2.ParseCodeOwners "* @alice @bob user@example.com\n# comment\n" =
      ["alice", "bob", "user@example.com"] ∧
    GhV2.ParseCodeOwners "* @alice\nsrc/ @alice @bob\n" = ["alice", "bob"] := by
  have hmain : ∀ content, GhV2.ParseCodeOwners content = parseCodeOwnersSpec content := by
    intro content
    unfold GhV2.ParseCodeOwners parseCodeOwnersSpec ownerTokens
    exact parse_lines_fold (strSplitChar content '\n') []
  refine ⟨hmain, ?_, by decide, by decide⟩
  intro content
  rw [hmain]
  exact foldl_dedupAppend_nodup _ _ List.nodup_nil

/-! ### C3: the managed-Kubernetes exclusion -/

theorem gh_collect_go (fetch : String → String → Option String)
    (repos : List Gh.Repository) :
    ∀ acc : List ResourceInfo,
      repos.foldl (fun resources repo =>
        if Gh.IsEKS repo.Files then resources
        else resources ++ [Gh.analyzeRepository fetch repo]) acc =
      acc ++ (repos.filter (fun r => !Gh.IsEKS r.Files)).map
        (Gh.analyzeRepository fetch) := by
  induction repos with
  | nil => intro acc; simp
  | cons r rs ih =>
    intro acc
    rw [List.foldl_cons, List.filter_cons]
    cases h : Gh.IsEKS r.Files with
    | true => simp [h, ih]
    | false => simp [h, ih]

theorem gh_collect_filter_map (fetch : String → String → Option String)
    (repos : List Gh.Repository) :
    Gh.Collect fetch repos =
      (repos.filter (fun r => !Gh.IsEKS r.Files)).map (Gh.analyzeRepository fetch) := by
  unfold Gh.Collect
  simpa using gh_collect_go fetch repos []

theorem foldl_foldl_flatten {α β : Type} (f : β → α → β) (L : List (List α)) :
    ∀ b : β, L.foldl (fun b l => l.foldl f b) b = (L.flatten).foldl f b := by
  induction L with
  | nil => intro b; rfl
  | cons l ls ih =>
    intro b
    rw [List.foldl_cons, ih, List.flatten_cons, List.foldl_append]

theorem aws_page_go (accountName : String) (page : List Aws.ResourceTagMapping) :
    ∀ acc : List Aws.Resource,
      page.foldl (fun acc mapping =>
        let resource := Aws.processResource accountName mapping
        if !Aws.isEKSResource resource.Tags then acc ++ [resource] else acc) acc =
      acc ++ ((page.map (Aws.processResource accountName)).filter
        (fun r => !Aws.isEKSResource r.Tags)) := by
  induction page with
  | nil => intro acc; simp
  | cons m ms ih =>
    intro acc
    rw [List.foldl_cons]
    cases h : Aws.isEKSResource (Aws.processResource accountName m).Tags with
    | true =>
      have hstep : (let resource := Aws.processResource accountName m
          if !Aws.isEKSResource resource.Tags then acc ++ [resource] else acc) = acc := by
        simp [h]
      rw [hstep, ih, List.map_cons, List.filter_cons]
      simp [h]
    | false =>
      have hstep : (let resource := Aws.processResource accountName m
          if !Aws.isEKSResource resource.Tags then acc ++ [resource] else acc) =
          acc ++ [Aws.processResource accountName m] := by
        simp [h]
      rw [hstep, ih, List.map_cons, List.filter_cons]
      simp [h]

theorem aws_getResources_filter (accountName : String)
    (pages : List (List Aws.ResourceTagMapping)) :
    Aws.GetResources accountName pages =
      (pages.flatten.map (Aws.processResource accountName)).filter
        (fun r => !Aws.isEKSResource r.Tags) := by
  unfold Aws.GetResources
  rw [foldl_foldl_flatten]
  simpa using aws_page_go accountName pages.flatten []

/-- **C3** — Managed-Kubernetes records are excluded before classification and
never appear in either backend's returned sequence: a GitHub collection run
equals the analysis of exactly the non-EKS repositories (an EKS indicator path
removes the repository no matter what else it contains), and an AWS collection
run equals the processed mappings with every record whose tag map carries an
EKS signal filtered out, regardless of its other tags. -/
theorem eks_exclusion :
    (∀ (fetch : String → String → Option String) (repos : List Gh.Repository),
      Gh.Collect fetch repos =
        (repos.filter (fun r => !Gh.IsEKS r.Files)).map (Gh.analyzeRepository fetch)) ∧
    (∀ (accountName : String) (pages : List (List Aws.ResourceTagMapping)),
      Aws.GetResources accountName pages =
        (pages.flatten.map (Aws.processResource accountName)).filter
          (fun r => !Aws.isEKSResource r.Tags)) :=
  ⟨gh_collect_filter_map, aws_getResources_filter⟩

/-! ### C4: non-empty ownership fields -/

/-- **C4 counterexample** — A final AWS record returned by the data source's
`Collect` can carry an empty Owner: an `owned-by` tag present with the empty
string as its value is copied through unchanged, because the enricher only
substitutes the sentinel when the tag key is absent. -/
theorem owner_nonempty_cex :
    (SourcesAws.Collect "acct"
      [[{ ResourceARN := "arn:aws:ec2:r:a:i",
          Tags := [{ Key := some "owned-by", Value := some "" }] }]]).map
      (fun info => info.Owner) = [""] := by decide

theorem ite_empty_sentinel_ne (o : String) :
    (if o == "" then "Unknown" else o) ≠ "" := by
  by_cases h : o = ""
  · simp [h]
  · simp [h]

theorem gh_analyze_owner_ne (fetch : String → String → Option String)
    (repo : Gh.Repository) :
    (Gh.analyzeRepository fetch repo).Owner ≠ "" ∧
    (Gh.analyzeRepository fetch repo).Team ≠ "" := by
  unfold Gh.analyzeRepository Gh.analyzeRepositoryWith
  constructor <;> exact ite_empty_sentinel_ne _

/-- **C4 (amended)** — Every record returned by the GitHub source's `Collect`
has non-empty Owner and Team; an AWS record returned by the data source's
`Collect` has non-empty Owner and Team provided any `owned-by`/`team` tag it
carries has a non-empty value (the sentinel "Unknown" is substituted only when
the tag key is absent, so an empty tag value passes through). -/
theorem owner_nonempty_amended :
    (∀ (fetch : String → String → Option String) (repos : List Gh.Repository)
      (info : ResourceInfo), info ∈ Gh.Collect fetch repos →
        info.Owner ≠ "" ∧ info.Team ≠ "") ∧
    (∀ (accountName : String) (pages : List (List Aws.ResourceTagMapping))
      (info : ResourceInfo), info ∈ SourcesAws.Collect accountName pages →
        mapGet info.ResourceTags "owned-by" ≠ some "" →
        mapGet info.ResourceTags "team" ≠ some "" →
        info.Owner ≠ "" ∧ info.Team ≠ "") := by
  constructor
  · intro fetch repos info hmem
    rw [gh_collect_filter_map] at hmem
    obtain ⟨r, _, rfl⟩ := List.mem_map.mp hmem
    exact gh_analyze_owner_ne fetch r
  · intro accountName pages info hmem howned hteam
    obtain ⟨res, _, rfl⟩ := List.mem_map.mp hmem
    have htags : (SourcesAws.enrichResource res).ResourceTags = res.Tags := rfl
    rw [htags] at howned hteam
    cases h1 : mapGet res.Tags "owned-by" with
    | some v =>
      have hv : v ≠ "" := by
        intro hv
        exact howned (by rw [h1, hv])
      cases h2 : mapGet res.Tags "team" with
      | some w =>
        have hw : w ≠ "" := by
          intro hw
          exact hteam (by rw [h2, hw])
        constructor <;> simp [SourcesAws.enrichResource, h1, h2, hv, hw]
      | none => constructor <;> simp [SourcesAws.enrichResource, h1, h2, hv]
    | none =>
      cases h2 : mapGet res.Tags "team" with
      | some w =>
        have hw : w ≠ "" := by
          intro hw
          exact hteam (by rw [h2, hw])
        constructor <;> simp [SourcesAws.enrichResource, h1, h2, hw]
      | none =>
        constructor <;> simp [SourcesAws.enrichResource, h1, h2] <;> decide

/-- A concrete mapping whose ownership tag has a non-empty value. -/
def exMappingOk : Aws.ResourceTagMapping :=
  { ResourceARN := "arn:aws:ec2:r:a:i",
    Tags := [{ Key := some "owned-by", Value := some "platform-team" }] }

/-- Witness for `owner_nonempty_amended`: on a concrete collection run whose
only ownership tag has a non-empty value, the returned record's Owner and Team
are non-empty. -/
theorem owner_nonempty_amended_witness :
    (SourcesAws.enrichResource (Aws.processResource "acct" exMappingOk)).Owner ≠ "" ∧
    (SourcesAws.enrichResource (Aws.processResource "acct" exMappingOk)).Team ≠ "" :=
  owner_nonempty_amended.2 "acct" [[exMappingOk]] _ (by decide) (by decide) (by decide)

/-! ### C6: platform detection labels -/

/-- **C6 counterexample** — Two files matching the same indicator set each
contribute a label: a listing with both `Dockerfile` and
`ecs-service.json` yields "ECS, ECS", not one "ECS" label per matched set. -/
theorem detectPlatform_duplicate_labels :
    Gh.DetectPlatform ["Dockerfile", "ecs-service.json"] = "ECS, ECS" ∧
    ("ECS, ECS" : String) ≠ "ECS" :=
  ⟨by decide, by decide⟩

theorem fold_label_replicate (inds : List String) (lbl : String)
    (files : List String) :
    ∀ acc : List String,
      files.foldl (fun acc file =>
        if Gh.indicatorMatch inds file then acc ++ [lbl] else acc) acc =
      acc ++ List.replicate (files.countP (Gh.indicatorMatch inds)) lbl := by
  induction files with
  | nil => intro acc; simp
  | cons f fs ih =>
    intro acc
    rw [List.foldl_cons]
    cases h : Gh.indicatorMatch inds f with
    | true =>
      rw [if_pos rfl, ih, List.countP_cons_of_pos _ _ h, List.replicate_succ,
        List.append_assoc, List.singleton_append]
    | false =>
      rw [if_neg (by simp), ih]
      simp [List.countP_cons, h]

theorem detectPlatform_characterization (files : List String) :
    Gh.DetectPlatform files =
      if files.countP (Gh.indicatorMatch Gh.ecsIndicators) +
         files.countP (Gh.indicatorMatch Gh.lambdaIndicators) +
         files.countP (Gh.indicatorMatch Gh.beanstalkIndicators) = 0 then "Unknown"
      else goJoin ", "
        (List.replicate (files.countP (Gh.indicatorMatch Gh.ecsIndicators)) "ECS" ++
         List.replicate (files.countP (Gh.indicatorMatch Gh.lambdaIndicators)) "Lambda" ++
         List.replicate (files.countP (Gh.indicatorMatch Gh.beanstalkIndicators))
           "Elastic Beanstalk") := by
  simp only [Gh.DetectPlatform]
  rw [fold_label_replicate, fold_label_replicate, fold_label_replicate]
  simp only [List.nil_append]
  set n1 := files.countP (Gh.indicatorMatch Gh.ecsIndicators) with hn1
  set n2 := files.countP (Gh.indicatorMatch Gh.lambdaIndicators) with hn2
  set n3 := files.countP (Gh.indicatorMatch Gh.beanstalkIndicators) with hn3
  by_cases h : n1 + n2 + n3 = 0
  · have e1 : n1 = 0 := by omega
    have e2 : n2 = 0 := by omega
    have e3 : n3 = 0 := by omega
    simp [e1, e2, e3]
  · simp [h, List.length_append, List.length_replicate]
    intro e1 e2 e3
    exact absurd (by omega) h

theorem any_eq_false_of_countP {α : Type} {p : α → Bool} {l : List α}
    (hc : l.countP p = 0) : l.any p = false := by
  rw [List.any_eq_false]
  intro x hx
  have := List.countP_eq_zero.mp hc x hx
  simpa using this

theorem any_eq_true_of_countP {α : Type} {p : α → Bool} {l : List α}
    (hc : l.countP p = 1) : l.any p = true := by
  rw [List.any_eq_true]
  have hpos : 0 < l.countP p := by omega
  exact List.countP_pos_iff.mp hpos

/-- **C6 (amended)** — `DetectPlatform` appends one label per matching file
per indicator set, in the fixed order ECS, Lambda, Elastic Beanstalk, and
returns "Unknown" when nothing matches; in particular, when each indicator set
has at most one matching file, each matched set contributes exactly one label
(comma-joined in table order), and a listing with a Dockerfile and a
serverless.yml yields "ECS, Lambda". -/
theorem detectPlatform_amended :
    (∀ files : List String,
      Gh.DetectPlatform files =
        if files.countP (Gh.indicatorMatch Gh.ecsIndicators) +
           files.countP (Gh.indicatorMatch Gh.lambdaIndicators) +
           files.countP (Gh.indicatorMatch Gh.beanstalkIndicators) = 0 then "Unknown"
        else goJoin ", "
          (List.replicate (files.countP (Gh.indicatorMatch Gh.ecsIndicators)) "ECS" ++
           List.replicate (files.countP (Gh.indicatorMatch Gh.lambdaIndicators)) "Lambda" ++
           List.replicate (files.countP (Gh.indicatorMatch Gh.beanstalkIndicators))
             "Elastic Beanstalk")) ∧
    (∀ files : List String,
      files.countP (Gh.indicatorMatch Gh.ecsIndicators) ≤ 1 →
      files.countP (Gh.indicatorMatch Gh.lambdaIndicators) ≤ 1 →
      files.countP (Gh.indicatorMatch Gh.beanstalkIndicators) ≤ 1 →
      Gh.DetectPlatform files =
        if files.any (Gh.indicatorMatch Gh.ecsIndicators) = false ∧
           files.any (Gh.indicatorMatch Gh.lambdaIndicators) = false ∧
           files.any (Gh.indicatorMatch Gh.beanstalkIndicators) = false then "Unknown"
        else goJoin ", "
          ((if files.any (Gh.indicatorMatch Gh.ecsIndicators) then ["ECS"] else []) ++
           (if files.any (Gh.indicatorMatch Gh.lambdaIndicators) then ["Lambda"] else []) ++
           (if files.any (Gh.indicatorMatch Gh.beanstalkIndicators) then
             ["Elastic Beanstalk"] else []))) ∧
    Gh.DetectPlatform ["Dockerfile", "serverless.yml"] = "ECS, Lambda" ∧
    Gh.DetectPlatform ["main.go", "README.md"] = "Unknown" := by
  refine ⟨detectPlatform_characterization, ?_, by decide, by decide⟩
  intro files h1 h2 h3
  rw [detectPlatform_characterization]
  rcases Nat.le_one_iff_eq_zero_or_eq_one.mp h1 with e1 | e1 <;>
    rcases Nat.le_one_iff_eq_zero_or_eq_one.mp h2 with e2 | e2 <;>
      rcases Nat.le_one_iff_eq_zero_or_eq_one.mp h3 with e3 | e3 <;>
        simp [e1, e2, e3, any_eq_false_of_countP, any_eq_true_of_countP]

/-- Witness for `detectPlatform_amended`: the at-most-one-matching-file
conjunct applied to the spec's own example listing. -/
theorem detectPlatform_amended_witness :
    (["Dockerfile", "serverless.yml"] : List String).countP
        (Gh.indicatorMatch Gh.ecsIndicators) ≤ 1 ∧
    Gh.DetectPlatform ["Dockerfile", "serverless.yml"] =
      if (["Dockerfile", "serverless.yml"] : List String).any
            (Gh.indicatorMatch Gh.ecsIndicators) = false ∧
          (["Dockerfile", "serverless.yml"] : List String).any
            (Gh.indicatorMatch Gh.lambdaIndicators) = false ∧
          (["Dockerfile", "serverless.yml"] : List String).any
            (Gh.indicatorMatch Gh.beanstalkIndicators) = false then "Unknown"
      else goJoin ", "
        ((if (["Dockerfile", "serverless.yml"] : List String).any
              (Gh.indicatorMatch Gh.ecsIndicators) then ["ECS"] else []) ++
         (if (["Dockerfile", "serverless.yml"] : List String).any
              (Gh.indicatorMatch Gh.lambdaIndicators) then ["Lambda"] else []) ++
         (if (["Dockerfile", "serverless.yml"] : List String).any
              (Gh.indicatorMatch Gh.beanstalkIndicators) then
           ["Elastic Beanstalk"] else [])) :=
  ⟨by decide, detectPlatform_amended.2.1 ["Dockerfile", "serverless.yml"]
    (by decide) (by decide) (by decide)⟩

/-! ### C8: the platform segment of the resource identifier -/

theorem string_mk_toList (s : String) : String.mk s.toList = s := rfl

theorem string_push_toList (s : String) (c : Char) :
    (s.push c).toList = s.toList ++ [c] := rfl

theorem splitOnChar_ne_nil (sep : Char) (cs : List Char) :
    splitOnChar sep cs ≠ [] := by
  cases cs with
  | nil => simp [splitOnChar]
  | cons c cs =>
    unfold splitOnChar
    by_cases h : (c == sep) = true
    · simp [h]
    · simp only [h]
      cases hs : splitOnChar sep cs <;> simp

/-- Prepend pending characters onto the first chunk of a split. -/
def consHead (cur : List Char) : List (List Char) → List (List Char)
  | [] => [cur]
  | chunk :: chunks => (cur ++ chunk) :: chunks

theorem dropTrailingEmpty_cons (a : String) (X : List String) (hX : X ≠ []) :
    dropTrailingEmpty (a :: X) = a :: dropTrailingEmpty X := by
  cases X with
  | nil => exact absurd rfl hX
  | cons y ys =>
    unfold dropTrailingEmpty
    rw [List.getLast?_cons_cons]
    by_cases h : (y :: ys).getLast? = some ""
    · rw [if_pos h, if_pos h]
      rfl
    · rw [if_neg h, if_neg h]

theorem parseARN_finish (cs : List Char) :
    ∀ (parts : List String) (cur : String),
      (let r := cs.foldl Aws.arnStep (parts, cur)
       if r.2 != "" then r.1 ++ [r.2] else r.1) =
      parts ++ dropTrailingEmpty ((consHead cur.toList (splitOnChar ':' cs)).map
        (fun l => String.mk l)) := by
  induction cs with
  | nil =>
    intro parts cur
    show (if cur != "" then parts ++ [cur] else parts) = _
    by_cases hcur : cur = ""
    · subst hcur
      simp [splitOnChar, consHead, dropTrailingEmpty]
    · rw [if_pos (by simp [hcur])]
      simp [splitOnChar, consHead, dropTrailingEmpty, string_mk_toList, hcur]
  | cons c cs ih =>
    intro parts cur
    by_cases hc : (c == ':') = true
    · have hcolon : c = ':' := by simpa using hc
      subst hcolon
      show (let r := cs.foldl Aws.arnStep (Aws.arnStep (parts, cur) ':')
            if r.2 != "" then r.1 ++ [r.2] else r.1) = _
      have hstep : Aws.arnStep (parts, cur) ':' = (parts ++ [cur], "") := by
        simp [Aws.arnStep]
      rw [hstep, ih]
      obtain ⟨chunk, chunks, hsplit⟩ :
          ∃ chunk chunks, splitOnChar ':' cs = chunk :: chunks := by
        cases h : splitOnChar ':' cs with
        | nil => exact absurd h (splitOnChar_ne_nil ':' cs)
        | cons a l => exact ⟨a, l, rfl⟩
      have hsplit2 : splitOnChar ':' (':' :: cs) = [] :: splitOnChar ':' cs := by
        simp [splitOnChar]
      rw [hsplit2, hsplit, consHead, consHead]
      have h0 : ("" : String).toList = [] := rfl
      rw [h0]
      simp only [List.nil_append, List.append_nil, List.map_cons, string_mk_toList]
      rw [dropTrailingEmpty_cons cur _ (by simp)]
      simp [List.append_assoc]
    · have hstep : Aws.arnStep (parts, cur) c = (parts, cur.push c) := by
        simp [Aws.arnStep, hc]
      show (let r := cs.foldl Aws.arnStep (Aws.arnStep (parts, cur) c)
            if r.2 != "" then r.1 ++ [r.2] else r.1) = _
      rw [hstep, ih]
      obtain ⟨chunk, chunks, hsplit⟩ :
          ∃ chunk chunks, splitOnChar ':' cs = chunk :: chunks := by
        cases h : splitOnChar ':' cs with
        | nil => exact absurd h (splitOnChar_ne_nil ':' cs)
        | cons a l => exact ⟨a, l, rfl⟩
      have hsplit2 : splitOnChar ':' (c :: cs) = (c :: chunk) :: chunks := by
        unfold splitOnChar
        rw [if_neg (by simp [hc] : ¬(c == ':') = true), hsplit]
      rw [hsplit2, hsplit]
      rw [consHead, consHead]
      rw [string_push_toList]
      simp [List.append_assoc]

theorem parseARN_eq_colonSegments (arn : String) :
    Aws.parseARN arn = dropTrailingEmpty (colonSegments arn) := by
  unfold Aws.parseARN colonSegments
  rw [parseARN_finish arn.toList [] ""]
  obtain ⟨chunk, chunks, hsplit⟩ :
      ∃ chunk chunks, splitOnChar ':' arn.toList = chunk :: chunks := by
    cases h : splitOnChar ':' arn.toList with
    | nil => exact absurd h (splitOnChar_ne_nil ':' arn.toList)
    | cons a l => exact ⟨a, l, rfl⟩
  rw [hsplit]
  show [] ++ dropTrailingEmpty ((consHead [] (chunk :: chunks)).map _) = _
  rw [consHead]
  simp

theorem dropTrailingEmpty_length (segs : List String) :
    segs.length - 1 ≤ (dropTrailingEmpty segs).length := by
  unfold dropTrailingEmpty
  by_cases hcond : segs.getLast? = some ""
  · rw [if_pos hcond, List.length_dropLast]
  · rw [if_neg hcond]
    exact Nat.sub_le _ _

theorem dropTrailingEmpty_getD2 (segs : List String) (h : 4 ≤ segs.length) :
    (dropTrailingEmpty segs).getD 2 "" = segs.getD 2 "" := by
  unfold dropTrailingEmpty
  by_cases hcond : segs.getLast? = some ""
  · rw [if_pos hcond, List.getD_eq_getElem?_getD, List.getD_eq_getElem?_getD,
      List.getElem?_dropLast, if_pos (by omega : 2 < segs.length - 1)]
  · rw [if_neg hcond]

theorem extract_eq_mapGet (arn : String) (h : 3 ≤ (Aws.parseARN arn).length) :
    Aws.extractPlatformFromARN arn =
      (mapGet Aws.platformMap ((Aws.parseARN arn).getD 2 "")).getD
        ((Aws.parseARN arn).getD 2 "") := by
  simp only [Aws.extractPlatformFromARN]
  rw [if_neg (by omega : ¬(Aws.parseARN arn).length < 3)]
  cases hm : mapGet Aws.platformMap ((Aws.parseARN arn).getD 2 "") <;> simp [hm]

/-- **C8** — A record's Platform attribute comes from the resource
identifier's third colon-separated segment mapped through the fixed
service→friendly-name table, with unmapped services passing through their raw
segment name: `processResource` takes its Platform from
`extractPlatformFromARN`; `parseARN` computes exactly the colon-separated
segments (with a trailing empty segment dropped); on any identifier with at
least three parsed segments (in particular any identifier with at least four
colon-separated segments) the platform is the table image of segment number
three, defaulting to the raw segment; and the six table rows plus the
pass-through case evaluate accordingly on concrete ARNs. -/
theorem platform_from_arn :
    (∀ (accountName : String) (mapping : Aws.ResourceTagMapping),
      (Aws.processResource accountName mapping).Platform =
        Aws.extractPlatformFromARN mapping.ResourceARN) ∧
    (∀ arn : String, Aws.parseARN arn = dropTrailingEmpty (colonSegments arn)) ∧
    (∀ arn : String, 3 ≤ (Aws.parseARN arn).length →
      Aws.extractPlatformFromARN arn =
        (mapGet Aws.platformMap ((Aws.parseARN arn).getD 2 "")).getD
          ((Aws.parseARN arn).getD 2 "")) ∧
    (∀ arn : String, 4 ≤ (colonSegments arn).length →
      Aws.extractPlatformFromARN arn =
        (mapGet Aws.platformMap ((colonSegments arn).getD 2 "")).getD
          ((colonSegments arn).getD 2 "")) ∧
    (Aws.extractPlatformFromARN "arn:aws:ec2:us-east-1:123456789:instance/i-1" = "EC2" ∧
     Aws.extractPlatformFromARN "arn:aws:lambda:us-east-1:123456789:function/f" = "Lambda" ∧
     Aws.extractPlatformFromARN "arn:aws:ecs:us-east-1:123456789:service/s" = "ECS" ∧
     Aws.extractPlatformFromARN "arn:aws:elasticbeanstalk:us-east-1:123456789:environment/e" =
       "Elastic Beanstalk" ∧
     Aws.extractPlatformFromARN "arn:aws:lightsail:us-east-1:123456789:instance/i" =
       "Lightsail" ∧
     Aws.extractPlatformFromARN "arn:aws:apprunner:us-east-1:123456789:service/s" =
       "App Runner" ∧
     Aws.extractPlatformFromARN "arn:aws:dynamodb:us-east-1:123456789:table/t" =
       "dynamodb") := by
  refine ⟨fun _ _ => rfl, parseARN_eq_colonSegments, extract_eq_mapGet, ?_, ?_⟩
  · intro arn h
    have hlen : 3 ≤ (Aws.parseARN arn).length := by
      rw [parseARN_eq_colonSegments]
      have := dropTrailingEmpty_length (colonSegments arn)
      omega
    have hg : (Aws.parseARN arn).getD 2 "" = (colonSegments arn).getD 2 "" := by
      rw [parseARN_eq_colonSegments]
      exact dropTrailingEmpty_getD2 _ h
    rw [extract_eq_mapGet arn hlen, hg]
  · exact ⟨by decide, by decide, by decide, by decide, by decide, by decide, by decide⟩

/-- Witness for `platform_from_arn`: its segment hypotheses discharged on the
concrete EC2 instance identifier. -/
theorem platform_from_arn_witness :
    3 ≤ (Aws.parseARN "arn:aws:ec2:us-east-1:123456789:instance/i-1").length ∧
    Aws.extractPlatformFromARN "arn:aws:ec2:us-east-1:123456789:instance/i-1" =
      (mapGet Aws.platformMap
        ((Aws.parseARN "arn:aws:ec2:us-east-1:123456789:instance/i-1").getD 2 "")).getD
        ((Aws.parseARN "arn:aws:ec2:us-east-1:123456789:instance/i-1").getD 2 "") :=
  ⟨by decide, platform_from_arn.2.2.1 "arn:aws:ec2:us-east-1:123456789:instance/i-1"
    (by decide)⟩

/-! ### C5: multi-account fan-in partitions successes and failures -/

/-- The successful side of one account's collection. -/
def collectOk (outcome : String → Tbl.Outcome) (n : String) : Option Tbl.Inventory :=
  (Tbl.collectFromAccount outcome n).toOption

/-- The failing side of one account's collection. -/
def collectErr (outcome : String → Tbl.Outcome) (n : String) : Option String :=
  match Tbl.collectFromAccount outcome n with
  | .error e => some e
  | .ok _ => none

theorem string_toList_append (s t : String) :
    (s ++ t).toList = s.toList ++ t.toList :=
  String.data_append s t

theorem collectFromAccounts_go (outcome : String → Tbl.Outcome)
    (arrival : List String) :
    ∀ accI accE,
      arrival.foldl (fun acc accountName =>
        match Tbl.collectFromAccount outcome accountName with
        | .error e => (acc.1, acc.2 ++ [e])
        | .ok inv => (acc.1 ++ [inv], acc.2)) (accI, accE) =
      (accI ++ arrival.filterMap (collectOk outcome),
       accE ++ arrival.filterMap (collectErr outcome)) := by
  induction arrival with
  | nil => intro accI accE; simp
  | cons n ns ih =>
    intro accI accE
    cases h : Tbl.collectFromAccount outcome n with
    | error e =>
      simp [List.foldl_cons, h, ih, List.filterMap_cons, collectOk, collectErr,
        List.append_assoc, Except.toOption]
    | ok inv =>
      simp [List.foldl_cons, h, ih, List.filterMap_cons, collectOk, collectErr,
        List.append_assoc, Except.toOption]

theorem collectFromAccounts_eq (outcome : String → Tbl.Outcome)
    (arrival : List String) :
    Tbl.CollectFromAccounts outcome arrival =
      (arrival.filterMap (collectOk outcome),
       arrival.filterMap (collectErr outcome)) := by
  unfold Tbl.CollectFromAccounts
  simpa using collectFromAccounts_go outcome arrival [] []

/-- The concrete three-target scenario of the spec: target 2 fails with an
auth error, targets 1 and 3 succeed with 2 and 1 resources. -/
def exOutcome : String → Tbl.Outcome := fun n =>
  if n == "acct1" then .ok [{ ARN := "arn1" }, { ARN := "arn2" }]
  else if n == "acct2" then .clientError "auth failure"
  else if n == "acct3" then .ok [{ ARN := "arn3" }]
  else .clientError "unknown account"

/-- **C5** — `CollectFromAccounts` returns every successful target's Inventory
and exactly one error per failed target: whatever order `arrival` the
goroutines' results reach the channel in, the fan-in loop partitions them into
exactly the per-account successes and the per-account failures (a permutation
of the requested names' outcomes); each failure message carries its account
name; and in the concrete 3-target scenario where only target 2 fails with an
auth error, the result holds targets 1 and 3's inventories (2 inventories, 3
resources in total) plus exactly the one error naming account 2. -/
theorem collectFromAccounts_partition :
    (∀ (outcome : String → Tbl.Outcome) (arrival : List String),
      Tbl.CollectFromAccounts outcome arrival =
        (arrival.filterMap (collectOk outcome),
         arrival.filterMap (collectErr outcome))) ∧
    (∀ (outcome : String → Tbl.Outcome) (names arrival : List String),
      arrival.Perm names →
      (Tbl.CollectFromAccounts outcome arrival).1.Perm
        (names.filterMap (collectOk outcome)) ∧
      (Tbl.CollectFromAccounts outcome arrival).2.Perm
        (names.filterMap (collectErr outcome))) ∧
    (∀ (outcome : String → Tbl.Outcome) (n e : String),
      Tbl.collectFromAccount outcome n = .error e → n.toList <:+: e.toList) ∧
    ((Tbl.CollectFromAccounts exOutcome ["acct3", "acct1", "acct2"]).1.length = 2 ∧
     ((Tbl.CollectFromAccounts exOutcome ["acct3", "acct1", "acct2"]).1.map
        (fun inv => inv.Resources.length)).sum = 3 ∧
     (Tbl.CollectFromAccounts exOutcome ["acct3", "acct1", "acct2"]).2 =
       ["collectFromAccount: account 'acct2': failed to create AWS client: auth failure"]) := by
  refine ⟨collectFromAccounts_eq, ?_, ?_, by decide, by decide, by decide⟩
  · intro outcome names arrival hperm
    rw [collectFromAccounts_eq]
    exact ⟨hperm.filterMap _, hperm.filterMap _⟩
  · intro outcome n e h
    unfold Tbl.collectFromAccount at h
    cases ho : outcome n with
    | clientError msg =>
      rw [ho] at h
      have he : "collectFromAccount: account '" ++ n ++
          "': failed to create AWS client: " ++ msg = e := by
        simpa using h
      refine ⟨("collectFromAccount: account '").toList,
        ("': failed to create AWS client: " ++ msg).toList, ?_⟩
      rw [← he]
      simp [string_toList_append, List.append_assoc]
    | resourcesError msg =>
      rw [ho] at h
      have he : "collectFromAccount: account '" ++ n ++
          "': failed to get resources: " ++ msg = e := by
        simpa using h
      refine ⟨("collectFromAccount: account '").toList,
        ("': failed to get resources: " ++ msg).toList, ?_⟩
      rw [← he]
      simp [string_toList_append, List.append_assoc]
    | ok resources =>
      rw [ho] at h
      exact absurd h (by simp)

/-- Witness for `collectFromAccounts_partition`: the permutation conjunct and
the error-naming conjunct applied to the concrete three-target scenario. -/
theorem collectFromAccounts_partition_witness :
    (["acct3", "acct1", "acct2"] : List String).Perm ["acct1", "acct2", "acct3"] ∧
    (Tbl.CollectFromAccounts exOutcome ["acct3", "acct1", "acct2"]).1.Perm
      ((["acct1", "acct2", "acct3"] : List String).filterMap (collectOk exOutcome)) ∧
    ("acct2" : String).toList <:+:
      ("collectFromAccount: account 'acct2': failed to create AWS client: auth failure" :
        String).toList :=
  ⟨by decide,
   (collectFromAccounts_partition.2.1 exOutcome ["acct1", "acct2", "acct3"]
      ["acct3", "acct1", "acct2"] (by decide)).1,
   collectFromAccounts_partition.2.2.1 exOutcome "acct2" _ rfl⟩

/-! ### C9: classification is deterministic, independent of map iteration order -/

theorem findSome?_perm_congr {α β : Type} (f : α → Option β) {l l' : List α}
    (perm : l.Perm l')
    (agree : ∀ a ∈ l, ∀ b ∈ l, ∀ x y, f a = some x → f b = some y → x = y) :
    l.findSome? f = l'.findSome? f := by
  cases h : l.findSome? f with
  | none =>
    cases h' : l'.findSome? f with
    | none => rfl
    | some y =>
      obtain ⟨b, hb, hfb⟩ := List.exists_of_findSome?_eq_some h'
      rw [List.findSome?_eq_none_iff.mp h b (perm.mem_iff.mpr hb)] at hfb
      exact absurd hfb (by simp)
  | some x =>
    obtain ⟨a, ha, hfa⟩ := List.exists_of_findSome?_eq_some h
    cases h' : l'.findSome? f with
    | none =>
      rw [List.findSome?_eq_none_iff.mp h' a (perm.mem_iff.mp ha)] at hfa
      exact absurd hfa (by simp)
    | some y =>
      obtain ⟨b, hb, hfb⟩ := List.exists_of_findSome?_eq_some h'
      rw [agree a ha b (perm.mem_iff.mpr hb) x y hfa hfb]

theorem cicdMatch_pattern_le {file pattern : String}
    (h : Gh.cicdMatch file pattern = true) : pattern.toList <+: file.toList := by
  unfold Gh.cicdMatch at h
  rw [Bool.or_eq_true] at h
  cases h with
  | inl h =>
    have he : file = pattern := by simpa using h
    rw [he]
  | inr h =>
    exact List.isPrefixOf_iff_prefix.mp (by simpa [strStartsWith] using h)

/-- Any two `cicdFiles` entries whose patterns are prefix-comparable carry the
same platform value (no entry's pattern is a prefix of a different entry's). -/
theorem cicdFiles_prefix_agree :
    ∀ e1 ∈ Gh.cicdFiles, ∀ e2 ∈ Gh.cicdFiles,
      (e1.1.toList <+: e2.1.toList ∨ e2.1.toList <+: e1.1.toList) →
        e1.2 = e2.2 := by decide

theorem cicd_inner_agree (file : String) :
    ∀ e1 ∈ Gh.cicdFiles, ∀ e2 ∈ Gh.cicdFiles, ∀ x y,
      (if Gh.cicdMatch file e1.1 then some e1.2 else none) = some x →
      (if Gh.cicdMatch file e2.1 then some e2.2 else none) = some y → x = y := by
  intro e1 h1 e2 h2 x y hx hy
  by_cases m1 : Gh.cicdMatch file e1.1 = true
  · by_cases m2 : Gh.cicdMatch file e2.1 = true
    · rw [if_pos m1] at hx
      rw [if_pos m2] at hy
      have hx' : e1.2 = x := by simpa using hx
      have hy' : e2.2 = y := by simpa using hy
      rw [← hx', ← hy']
      exact cicdFiles_prefix_agree e1 h1 e2 h2
        (List.prefix_or_prefix_of_prefix (cicdMatch_pattern_le m1) (cicdMatch_pattern_le m2))
    · rw [if_neg m2] at hy
      exact absurd hy (by simp)
  · rw [if_neg m1] at hx
    exact absurd hx (by simp)

theorem detectCICDWith_perm (tbl : List (String × String))
    (hperm : tbl.Perm Gh.cicdFiles) (files : List String) :
    Gh.DetectCICDWith tbl files = Gh.DetectCICDWith Gh.cicdFiles files := by
  unfold Gh.DetectCICDWith
  have hinner : (fun file => tbl.findSome?
      (fun e => if Gh.cicdMatch file e.1 then some e.2 else none)) =
      (fun file => Gh.cicdFiles.findSome?
        (fun e => if Gh.cicdMatch file e.1 then some e.2 else none)) := by
    funext file
    refine findSome?_perm_congr _ hperm ?_
    intro a ha b hb x y hx hy
    exact cicd_inner_agree file a (hperm.subset ha) b (hperm.subset hb) x y hx hy
  rw [hinner]

theorem analyzeRepositoryWith_perm (tbl : List (String × String))
    (hperm : tbl.Perm Gh.cicdFiles) (fetch : String → String → Option String)
    (repo : Gh.Repository) :
    Gh.analyzeRepositoryWith tbl fetch repo =
      Gh.analyzeRepositoryWith Gh.cicdFiles fetch repo := by
  unfold Gh.analyzeRepositoryWith
  rw [detectCICDWith_perm tbl hperm repo.Files]

/-- **C9** — Classification is a deterministic function of the raw record.
The only iteration whose order Go leaves unspecified is the range over the
`cicdFiles` map; for any two orders of that table (any permutations of its
entries), `DetectCICD` and therefore the whole repository classification
`analyzeRepository` produce identical `ResourceInfo` values, so two runs of
classification on the same record agree byte for byte. -/
theorem classification_deterministic (tbl₁ tbl₂ : List (String × String))
    (h₁ : tbl₁.Perm Gh.cicdFiles) (h₂ : tbl₂.Perm Gh.cicdFiles) :
    (∀ files, Gh.DetectCICDWith tbl₁ files = Gh.DetectCICDWith tbl₂ files) ∧
    (∀ (fetch : String → String → Option String) (repo : Gh.Repository),
      Gh.analyzeRepositoryWith tbl₁ fetch repo =
        Gh.analyzeRepositoryWith tbl₂ fetch repo) := by
  constructor
  · intro files
    rw [detectCICDWith_perm tbl₁ h₁ files, detectCICDWith_perm tbl₂ h₂ files]
  · intro fetch repo
    rw [analyzeRepositoryWith_perm tbl₁ h₁ fetch repo,
      analyzeRepositoryWith_perm tbl₂ h₂ fetch repo]

/-- Witness for `classification_deterministic`: analyzing a concrete
repository with the CI/CD table reversed gives the same record as with the
table in source order. -/
theorem classification_deterministic_witness :
    Gh.analyzeRepositoryWith Gh.cicdFiles.reverse (fun _ _ => none)
        { Name := "r", Files := [".github/workflows/ci.yml", "Dockerfile"] } =
      Gh.analyzeRepositoryWith Gh.cicdFiles (fun _ _ => none)
        { Name := "r", Files := [".github/workflows/ci.yml", "Dockerfile"] } :=
  (classification_deterministic Gh.cicdFiles.reverse Gh.cicdFiles
    (List.reverse_perm Gh.cicdFiles) (List.Perm.refl Gh.cicdFiles)).2
    (fun _ _ => none) { Name := "r", Files := [".github/workflows/ci.yml", "Dockerfile"] }
